import Mathlib

/-!
Verification of the chat-participant orchestration logic of the
vscode-copilot-lean4 extension.

The definitions below are a shallow embedding of the TypeScript sources:

* `src/src/chat/participant.ts` — the lean4 chat handler, the tool-call
  orchestration loop (`runTools` / `executeToolCallRound`), the no-tools
  path (`runNoTools`), model selection (`selectAppropriateModel`), the
  direct commands (`listToolsCommand`, `listModelsCommand`), the metadata
  type guard (`isTsxToolUserMetadata`) and `generateFollowups`;
* `src/unnamed/part_002` — the prompt renderer (`ToolResultElement.render`),
  modelled by its tool-invocation behaviour;
* `src/unnamed/part_001` and `src/src/chat/followups.ts` — the earlier
  capy1 iteration of the handler and its followup provider.

The host platform (VS Code) is modelled by explicit parameters: the tool
registry is a list of named tools with explicit behaviours, the language
model is a script mapping each dispatch index to the list of response
parts it streams back, and all host-visible side effects (progress,
markdown, model requests, tool invocations) are collected in an explicit
effect trace.  The unbounded orchestration loop is embedded with explicit
fuel; running out of fuel yields `none`.
-/

/-- A tool call requested by the model
(`vscode.LanguageModelToolCallPart`): an identifier, a tool name and an
opaque JSON input. -/
structure LanguageModelToolCallPart where
  callId : String
  name : String
  input : String
deriving Repr, DecidableEq

/-- One part of a streamed model response: a text part or a tool-call
part (`vscode.LanguageModelTextPart` / `vscode.LanguageModelToolCallPart`). -/
inductive LanguageModelResponsePart where
  | textPart (value : String)
  | toolCallPart (part : LanguageModelToolCallPart)
deriving Repr, DecidableEq

/-- The result of invoking a tool (`vscode.LanguageModelToolResult`): a
list of content pieces, modelled as strings. -/
structure LanguageModelToolResult where
  content : List String
deriving Repr, DecidableEq

/-- One entry of the host tool registry (`vscode.lm.tools` together with
the behaviour `vscode.lm.invokeTool` exposes for it).  `impl` returns
`Except.error m` when the invocation throws an error whose message is `m`. -/
structure RegisteredTool where
  name : String
  impl : String → Except String LanguageModelToolResult

/-- One round of the orchestration loop (`ToolCallRound` in
`src/unnamed/part_002`): the response text of the round and the tool
calls the model requested. -/
structure ToolCallRound where
  response : String
  toolCalls : List LanguageModelToolCallPart
deriving Repr, DecidableEq

/-- `ToolCallsMetadata` from participant.ts: the rounds and the
accumulated result cache, echoed back to the host in the turn result. -/
structure ToolCallsMetadata where
  toolCallRounds : List ToolCallRound
  toolCallResults : List (String × LanguageModelToolResult)
deriving Repr, DecidableEq

/-- `errorDetails` of a failed turn result. -/
structure ErrorDetails where
  message : String
  responseIsFiltered : Bool
deriving Repr, DecidableEq

/-- The metadata object of a `lean4ChatResult` (participant.ts):
an optional command tag and optional tool-call metadata. -/
structure ChatMetadata where
  command : Option String := none
  toolCallsMetadata : Option ToolCallsMetadata := none
deriving Repr, DecidableEq

/-- `lean4ChatResult` from participant.ts / `src/unnamed/part_002`:
a success flag, optional error details and metadata. -/
structure lean4ChatResult where
  success : Bool
  errorDetails : Option ErrorDetails := none
  metadata : ChatMetadata := {}
deriving Repr, DecidableEq

/-- A host-visible side effect of one turn, in the order it happens:
a progress message, a streamed markdown fragment, a model request
(`model.sendRequest`, tagged with the dispatch index), or a tool
invocation (`vscode.lm.invokeTool`, tagged with tool name and call id). -/
inductive ChatEffect where
  | progress (message : String)
  | markdown (value : String)
  | sendRequest (dispatchIndex : Nat)
  | invokeTool (name : String) (callId : String)
deriving Repr, DecidableEq

/-- The part of a `vscode.ChatRequest` the handler consults: the
optional slash command and the prompt text. -/
structure ChatRequest where
  command : Option String
  prompt : String
deriving Repr, DecidableEq

/-- A thrown JavaScript value: an `Error` carrying a message, or any
other value (for which `error instanceof Error` is false). -/
inductive JsError where
  | error (message : String)
  | other
deriving Repr, DecidableEq

/-- A chat model as the handler sees it (`vscode.LanguageModelChat`):
name, vendor, family and maximum input token count. -/
structure LanguageModelChat where
  name : String
  vendor : String
  family : String
  maxInputTokens : Nat
deriving Repr, DecidableEq

/-- A tool registry entry as the tools table renders it
(`vscode.LanguageModelToolInformation`): name, description, whether an
input schema object is present (truthiness of `tool.inputSchema`), and
tags. -/
structure ToolInformation where
  name : String
  description : String
  hasInputSchema : Bool
  tags : List String
deriving Repr, DecidableEq

/-- The chat context (`vscode.ChatContext`); the functions under claim
only pass it around or log it, so its history is kept opaque. -/
structure ChatContext where
  history : List String
deriving Repr, DecidableEq

/-- A follow-up suggestion (`vscode.ChatFollowup`). -/
structure ChatFollowup where
  prompt : String
  label : String
deriving Repr, DecidableEq

/-! ## JavaScript record operations

`accumulatedToolResults` is a JavaScript `Record<string, ...>`: property
assignment overwrites the value of an existing key in place and appends a
fresh key at the end; property read returns the value or `undefined`. -/

/-- Read a key of a JS record (`undefined` becomes `none`). -/
def recordGet {α : Type} (m : List (String × α)) (k : String) : Option α :=
  (m.find? (fun p => p.1 == k)).map (fun p => p.2)

/-- Assign a key of a JS record: overwrite the entry of the key in
place when present (a record holds each key at most once), append a
fresh entry at the end otherwise. -/
def recordSet {α : Type} : List (String × α) → String → α → List (String × α)
  | [], k, v => [(k, v)]
  | p :: rest, k, v =>
    if p.1 == k then (k, v) :: rest else p :: recordSet rest k v

/-- The keys of a JS record, in property order. -/
def recordKeys {α : Type} (m : List (String × α)) : List String :=
  m.map (fun p => p.1)

/-! ## Response stream processing

`runTools` and `runNoTools` iterate the streamed response parts
(participant.ts lines 280-285 and 338-345): text parts are streamed to
the output as markdown and accumulated into `responseStr`; tool-call
parts are collected into `toolCalls` (only on the tools path). -/

/-- The accumulated `responseStr` of one response stream. -/
def streamResponseText (parts : List LanguageModelResponsePart) : String :=
  parts.foldl
    (fun acc p =>
      match p with
      | LanguageModelResponsePart.textPart v => acc ++ v
      | LanguageModelResponsePart.toolCallPart _ => acc) ""

/-- The markdown effects streamed while iterating a response: one
`stream.markdown(part.value)` per text part, in order. -/
def streamMarkdownEffects (parts : List LanguageModelResponsePart) :
    List ChatEffect :=
  parts.filterMap
    (fun p =>
      match p with
      | LanguageModelResponsePart.textPart v => some (ChatEffect.markdown v)
      | LanguageModelResponsePart.toolCallPart _ => none)

/-- The tool calls collected from a response stream, in order. -/
def collectToolCalls (parts : List LanguageModelResponsePart) :
    List LanguageModelToolCallPart :=
  parts.filterMap
    (fun p =>
      match p with
      | LanguageModelResponsePart.textPart _ => none
      | LanguageModelResponsePart.toolCallPart tc => some tc)

/-- Whether a response part is a text part. -/
def isTextPart : LanguageModelResponsePart → Bool
  | LanguageModelResponsePart.textPart _ => true
  | LanguageModelResponsePart.toolCallPart _ => false

/-- `vscode.lm.invokeTool`: look the tool up by name and run it; a
missing tool is a host-side error (the guarded call sites only invoke
after a successful lookup). -/
def lmInvokeTool (tools : List RegisteredTool) (name input : String) :
    Except String LanguageModelToolResult :=
  match tools.find? (fun t => t.name == name) with
  | some t => t.impl input
  | none => Except.error ("Tool not found: " ++ name)

/-! ## The Invoke phase of one round

participant.ts, `runTools`, lines 356-370: for each requested tool call,
look the tool up by name; if absent, record a synthetic result
`{ content: ["Tool not found"] }` under the call identifier; otherwise
invoke it, recording the result, and on a thrown error record
`{ content: ["Error invoking tool: " ++ message] }` instead.  The second
component of the return value is the trace of real `invokeTool` calls. -/

def invokeToolCalls (tools : List RegisteredTool)
    (accumulatedToolResults : List (String × LanguageModelToolResult)) :
    List LanguageModelToolCallPart →
      List (String × LanguageModelToolResult) × List ChatEffect
  | [] => (accumulatedToolResults, [])
  | toolCall :: rest =>
    match tools.find? (fun t => t.name == toolCall.name) with
    | none =>
        invokeToolCalls tools
          (recordSet accumulatedToolResults toolCall.callId
            ⟨["Tool not found"]⟩) rest
    | some _ =>
        match lmInvokeTool tools toolCall.name toolCall.input with
        | Except.ok toolResult =>
            let out := invokeToolCalls tools
              (recordSet accumulatedToolResults toolCall.callId toolResult) rest
            (out.1, ChatEffect.invokeTool toolCall.name toolCall.callId :: out.2)
        | Except.error msg =>
            let out := invokeToolCalls tools
              (recordSet accumulatedToolResults toolCall.callId
                ⟨["Error invoking tool: " ++ msg]⟩) rest
            (out.1, ChatEffect.invokeTool toolCall.name toolCall.callId :: out.2)

/-! ## The render phase

`src/unnamed/part_002`, `ToolResultElement.render` (lines 162-193):
rendering the prompt for the next dispatch re-renders every previous
round; each tool call renders either the cached result
(`this.props.toolCallResult ?? await vscode.lm.invokeTool(...)`), a
"Tool not found" message when the tool is no longer registered, or — only
when the cache has no entry for the call identifier — a fresh invocation.
Only the invocation trace matters here. -/

/-- The `invokeTool` calls one `ToolResultElement` render performs, given
the cached result looked up for its call identifier. -/
def toolResultElementInvokes (tools : List RegisteredTool)
    (toolCallResult : Option LanguageModelToolResult)
    (toolCall : LanguageModelToolCallPart) : List ChatEffect :=
  match tools.find? (fun t => t.name == toolCall.name) with
  | none => []
  | some _ =>
    match toolCallResult with
    | some _ => []
    | none => [ChatEffect.invokeTool toolCall.name toolCall.callId]

/-- The invocations performed by rendering one previous round
(`ToolCalls.renderOneToolCallRound`): each call is rendered with
`toolCallResult := toolCallResults[toolCall.callId]`. -/
def renderOneToolCallRoundInvokes (tools : List RegisteredTool)
    (toolCallResults : List (String × LanguageModelToolResult))
    (round : ToolCallRound) : List ChatEffect :=
  (round.toolCalls.map
    (fun tc => toolResultElementInvokes tools
      (recordGet toolCallResults tc.callId) tc)).flatten

/-- The invocations performed by rendering the prompt
(`ToolCalls.render` over all previous rounds; an empty round list
renders nothing). -/
def toolCallsRenderInvokes (tools : List RegisteredTool)
    (toolCallResults : List (String × LanguageModelToolResult))
    (toolCallRounds : List ToolCallRound) : List ChatEffect :=
  (toolCallRounds.map (renderOneToolCallRoundInvokes tools toolCallResults)).flatten

/-! ## The orchestration loop

participant.ts, `runTools` / `executeToolCallRound` (lines 295-389).
Each iteration: render the prompt from the accumulated rounds and
results, send the request (`sendRequest`, one dispatch), stream the text
parts and collect the tool calls; with no tool calls the turn is done and
returns success with the tool-call metadata; otherwise the round is
appended, its calls are invoked, and the loop recurses.  The recursion is
embedded with explicit fuel (`none` = fuel ran out before the model
stopped calling tools). -/

def executeToolCallRound (tools : List RegisteredTool)
    (script : Nat → List LanguageModelResponsePart) :
    Nat → Nat → List ToolCallRound →
      List (String × LanguageModelToolResult) →
      Option (lean4ChatResult × List ChatEffect)
  | 0, _, _, _ => none
  | fuel + 1, dispatchIndex, toolCallRounds, accumulatedToolResults =>
    let renderEffects :=
      toolCallsRenderInvokes tools accumulatedToolResults toolCallRounds
    let parts := script dispatchIndex
    let responseStr := streamResponseText parts
    let toolCalls := collectToolCalls parts
    let phaseEffects :=
      renderEffects ++ [ChatEffect.sendRequest dispatchIndex] ++
        streamMarkdownEffects parts
    if toolCalls.isEmpty then
      some ({ success := true,
              metadata :=
                { toolCallsMetadata :=
                    some ⟨toolCallRounds, accumulatedToolResults⟩ } },
            phaseEffects)
    else
      let out := invokeToolCalls tools accumulatedToolResults toolCalls
      match executeToolCallRound tools script fuel (dispatchIndex + 1)
          (toolCallRounds ++ [⟨responseStr, toolCalls⟩]) out.1 with
      | none => none
      | some (r, effs) => some (r, phaseEffects ++ out.2 ++ effs)

/-- `runTools` (participant.ts lines 295-389): the orchestration loop
started from an empty round list and an empty result cache. -/
def runTools (tools : List RegisteredTool)
    (script : Nat → List LanguageModelResponsePart) (fuel : Nat) :
    Option (lean4ChatResult × List ChatEffect) :=
  executeToolCallRound tools script fuel 0 [] []

/-- `runNoTools` (participant.ts lines 244-290): render the prompt
without tool calls, send one request, stream only the text parts as
markdown, ignore every other response part, and return success with
empty metadata. -/
def runNoTools (script : Nat → List LanguageModelResponsePart) :
    lean4ChatResult × List ChatEffect :=
  ({ success := true, metadata := {} },
   ChatEffect.sendRequest 0 :: streamMarkdownEffects (script 0))

/-- `handleChatRequest` (participant.ts lines 223-239): route on the
`lean4.copilot.autoToolUse` configuration flag. -/
def handleChatRequest (autoToolUse : Bool) (tools : List RegisteredTool)
    (script : Nat → List LanguageModelResponsePart) (fuel : Nat) :
    Option (lean4ChatResult × List ChatEffect) :=
  if autoToolUse then runTools tools script fuel
  else some (runNoTools script)

/-! ## Markdown tables and direct commands -/

/-- Replace every maximal run of carriage returns and newlines by a
single space (the regex replace in `getToolsMarkdownTable`); the flag
records whether the previous character was part of such a run. -/
def collapseNewlinesAux : Bool → List Char → List Char
  | _, [] => []
  | inRun, c :: rest =>
    if c = '\r' ∨ c = '\n' then
      if inRun then collapseNewlinesAux true rest
      else ' ' :: collapseNewlinesAux true rest
    else c :: collapseNewlinesAux false rest

/-- `description.replace(/[\r\n]+/g, ' ')`. -/
def collapseNewlines (s : String) : String :=
  (collapseNewlinesAux false s.toList).asString

/-- `getToolsMarkdownTable` (participant.ts lines 180-198): a markdown
table of the registered tools; each description is truncated to 50
characters, newline runs collapsed, and suffixed with an ellipsis; empty
joined tags fall back to the string None. -/
def getToolsMarkdownTable (tools : List ToolInformation) : String :=
  let tableHeader := "| Name | Description | Input | Tags |\n|---|---|---|---|"
  let tableRows := tools.foldl
    (fun rows tool =>
      let name := tool.name
      let description :=
        collapseNewlines ((tool.description.toList.take 50).asString) ++ "..."
      let inputSchema := if tool.hasInputSchema then "Yes" else "No"
      let tags :=
        if String.intercalate ", " tool.tags = "" then "None"
        else String.intercalate ", " tool.tags
      rows ++ "\n| " ++ name ++ " | " ++ description ++ " | " ++
        inputSchema ++ " | " ++ tags ++ " |") ""
  "Available tools:\n" ++ (tableHeader ++ tableRows)

/-- `getModelsMarkdownTable` (participant.ts lines 200-218): a markdown
table of the available models; `Math.round(maxInputTokens / 1000)` is
modelled as exact half-up rounding on naturals, and a zero token count
(falsy in JavaScript) renders as N/A. -/
def getModelsMarkdownTable (models : List LanguageModelChat) : String :=
  if models.length = 0 then "No models available."
  else
    let tableHeader := "| Name | Max Input Tokens |\n|---|---|"
    let tableRows := models.foldl
      (fun rows model =>
        let maxInputTokens :=
          if model.maxInputTokens ≠ 0 then
            toString ((model.maxInputTokens + 500) / 1000) ++ "k"
          else "N/A"
        rows ++ "\n| " ++ model.name ++ " | " ++ maxInputTokens ++ " |") ""
    "Available models:\n" ++ (tableHeader ++ tableRows)

/-- `listToolsCommand` (participant.ts lines 159-165): stream the tools
table and return success with the command tag list. -/
def listToolsCommand (toolsInfo : List ToolInformation) :
    lean4ChatResult × List ChatEffect :=
  ({ success := true, metadata := { command := some "list" } },
   [ChatEffect.markdown (getToolsMarkdownTable toolsInfo)])

/-- `listModelsCommand` (participant.ts lines 173-178): stream the
models table and return success with the command tag listModels. -/
def listModelsCommand (models : List LanguageModelChat) :
    lean4ChatResult × List ChatEffect :=
  ({ success := true, metadata := { command := some "listModels" } },
   [ChatEffect.markdown (getModelsMarkdownTable models)])

/-- The message of a caught JavaScript value:
`error instanceof Error ? error.message : "Unknown error"`. -/
def jsErrorMessage : JsError → String
  | JsError.error message => message
  | JsError.other => "Unknown error"

/-- `lean4CopilotChatHandler` (participant.ts lines 108-152): stream a
progress message, short-circuit the two direct commands, and otherwise
run the request body (model selection plus orchestration, given here as
its outcome `rest`, which is either a result with its effect trace or a
thrown value); any thrown value is caught, a generic failure message is
streamed, and a failure result carrying the message is returned. -/
def lean4CopilotChatHandler (request : ChatRequest)
    (toolsInfo : List ToolInformation) (models : List LanguageModelChat)
    (rest : Except JsError (lean4ChatResult × List ChatEffect)) :
    lean4ChatResult × List ChatEffect :=
  let progress := ChatEffect.progress "lean4Copilot is busy thinking..."
  if request.command = some "listTools" then
    let out := listToolsCommand toolsInfo
    (out.1, progress :: out.2)
  else if request.command = some "listModels" then
    let out := listModelsCommand models
    (out.1, progress :: out.2)
  else
    match rest with
    | Except.ok out => (out.1, progress :: out.2)
    | Except.error e =>
        ({ success := false,
           errorDetails := some ⟨jsErrorMessage e, false⟩,
           metadata := {} },
         [progress,
          ChatEffect.markdown
            "An unexpected error occurred while processing your request."])

/-! ## Model selection -/

/-- `vscode.lm.selectChatModels({vendor, family})`: the host registry
filtered by vendor and family. -/
def selectChatModels (allModels : List LanguageModelChat)
    (vendor family : String) : List LanguageModelChat :=
  allModels.filter (fun m => m.vendor == vendor && m.family == family)

/-- JavaScript `s.startsWith(p)`, modelled on the character sequence. -/
def stringStartsWith (s p : String) : Bool :=
  p.toList.isPrefixOf s.toList

/-- `selectAppropriateModel` (participant.ts lines 77-97): a copilot
model of an o1 family is replaced by the first copilot gpt-4o model when
one is available; every other model is returned unchanged. -/
def selectAppropriateModel (allModels : List LanguageModelChat)
    (currentModel : LanguageModelChat) : LanguageModelChat :=
  if currentModel.vendor == "copilot" && stringStartsWith currentModel.family "o1" then
    match selectChatModels allModels "copilot" "gpt-4o" with
    | [] => currentModel
    | m :: _ => m
  else currentModel

/-! ## The metadata type guard -/

/-- A JavaScript value, as far as the type guard inspects one. -/
inductive JSValue where
  | undefined
  | null
  | boolean (b : Bool)
  | number (n : Int)
  | string (s : String)
  | array (elems : List JSValue)
  | object (fields : List (String × JSValue))
deriving Repr

/-- JavaScript truthiness (`!!v`). -/
def JSValue.truthy : JSValue → Bool
  | JSValue.undefined => false
  | JSValue.null => false
  | JSValue.boolean b => b
  | JSValue.number n => n != 0
  | JSValue.string s => s != ""
  | JSValue.array _ => true
  | JSValue.object _ => true

/-- Property access `v.k`: the field of an object, `undefined` otherwise. -/
def JSValue.getProp : JSValue → String → JSValue
  | JSValue.object fields, k =>
      match fields.find? (fun p => p.1 == k) with
      | some p => p.2
      | none => JSValue.undefined
  | _, _ => JSValue.undefined

/-- `Array.isArray(v)`. -/
def JSValue.isArray : JSValue → Bool
  | JSValue.array _ => true
  | _ => false

/-- `isTsxToolUserMetadata` (participant.ts lines 31-36):
`!!obj && !!obj.toolCallsMetadata &&
Array.isArray(obj.toolCallsMetadata.toolCallRounds)`. -/
def isTsxToolUserMetadata (obj : JSValue) : Bool :=
  obj.truthy && (obj.getProp "toolCallsMetadata").truthy &&
    ((obj.getProp "toolCallsMetadata").getProp "toolCallRounds").isArray

/-! ## Follow-up providers -/

/-- `generateFollowups` (participant.ts lines 509-526): one followup per
configured prompt, the label being the prompt behind a fixed plus-sign
marker (the literal three characters the source file holds, followed by a
space). -/
def generateFollowups (result : lean4ChatResult) (context : ChatContext)
    (followUps : List String) : List ChatFollowup :=
  followUps.map (fun prompt => { prompt := prompt, label := "âž• " ++ prompt })

/-! ## The capy1 iteration (src/unnamed/part_001, src/src/chat) -/

namespace Capy1

/-- `ChatResult` from `src/src/chat/types.ts`. -/
structure ChatResult where
  success : Bool
  error : Option String := none
deriving Repr, DecidableEq

/-- The model response as `handleChatRequest` of `src/unnamed/part_001`
inspects it: `chatResponse?.text` is the stream of text fragments, and a
missing `text` property is `none` (the guard tests the property, not the
emptiness of the stream). -/
structure LanguageModelChatResponse where
  text : Option (List String)
deriving Repr, DecidableEq

/-- `handleChatRequest` (`src/unnamed/part_001` lines 116-149) after a
successful `sendRequest`: a nullish response or missing `text` property
yields the empty-response warning and a failure; otherwise every
fragment is streamed and the turn succeeds. -/
def handleChatRequest (chatResponse : Option LanguageModelChatResponse) :
    ChatResult × List ChatEffect :=
  match chatResponse with
  | none =>
      ({ success := false, error := some "Empty response from chat model" },
       [ChatEffect.markdown "The chat model returned an empty response."])
  | some response =>
      match response.text with
      | none =>
          ({ success := false, error := some "Empty response from chat model" },
           [ChatEffect.markdown "The chat model returned an empty response."])
      | some fragments =>
          ({ success := true }, fragments.map ChatEffect.markdown)

/-- `DEFAULT_FOLLOWUPS` (`src/src/chat/followups.ts`). -/
def DEFAULT_FOLLOWUPS : List String :=
  ["Analyze your output systematically!", "Are you hungry?"]

/-- `generateFollowups` (`src/src/chat/followups.ts` lines 16-23): the
fixed default list, each label behind the capybara marker. -/
def generateFollowups (result : ChatResult) (context : ChatContext) :
    List ChatFollowup :=
  DEFAULT_FOLLOWUPS.map (fun prompt => { prompt := prompt, label := "🦫 " ++ prompt })

end Capy1

/-! ## Record lemmas -/

theorem recordGet_recordSet_self {α : Type} (m : List (String × α))
    (k : String) (v : α) : recordGet (recordSet m k v) k = some v := by
  induction m with
  | nil => simp [recordGet, recordSet, List.find?_cons]
  | cons p rest ih =>
    by_cases hp : p.1 = k
    · simp [recordGet, recordSet, List.find?_cons, hp]
    · have hpb : (p.1 == k) = false := by simp [hp]
      simp only [recordSet, hpb, Bool.false_eq_true, if_false]
      simpa [recordGet, List.find?_cons, hpb] using ih

theorem recordGet_recordSet_of_ne {α : Type} (m : List (String × α))
    (k k' : String) (v : α) (hne : k' ≠ k) :
    recordGet (recordSet m k' v) k = recordGet m k := by
  induction m with
  | nil => simp [recordGet, recordSet, List.find?_cons, hne]
  | cons p rest ih =>
    by_cases hp : p.1 = k'
    · have hpk : ¬(p.1 = k) := by
        rw [hp]
        exact hne
      simp [recordGet, recordSet, List.find?_cons, hp, hne, hpk]
    · have hpb : (p.1 == k') = false := by simp [hp]
      simp only [recordSet, hpb, Bool.false_eq_true, if_false]
      by_cases hpk : p.1 = k
      · simp [recordGet, List.find?_cons, hpk]
      · simpa [recordGet, List.find?_cons, hpk] using ih

theorem recordGet_isSome_recordSet {α : Type} (m : List (String × α))
    (k k' : String) (v : α) (h : (recordGet m k).isSome = true) :
    (recordGet (recordSet m k' v) k).isSome = true := by
  by_cases hk : k' = k
  · subst hk
    rw [recordGet_recordSet_self]
    rfl
  · rw [recordGet_recordSet_of_ne m k k' v hk]
    exact h

theorem recordKeys_recordSet_of_not_mem {α : Type} (m : List (String × α))
    (k : String) (v : α) (h : k ∉ recordKeys m) :
    recordKeys (recordSet m k v) = recordKeys m ++ [k] := by
  induction m with
  | nil => simp [recordKeys, recordSet]
  | cons p rest ih =>
    simp only [recordKeys, List.map_cons, List.mem_cons] at h
    push_neg at h
    have hpb : (p.1 == k) = false := by
      simpa using Ne.symm h.1
    simp only [recordSet, hpb, Bool.false_eq_true, if_false]
    have htail : k ∉ recordKeys rest := by
      simpa [recordKeys] using h.2
    have hrec := ih htail
    simp only [recordKeys, List.map_cons] at hrec ⊢
    rw [hrec]
    simp [List.cons_append]

/-! ## Effect classification -/

/-- Whether an effect is a model request. -/
def isSendRequest : ChatEffect → Bool
  | ChatEffect.sendRequest _ => true
  | _ => false

/-- The number of model dispatches in an effect trace. -/
def dispatchCount (effs : List ChatEffect) : Nat :=
  effs.countP isSendRequest

/-- The identifiers of the tool invocations in an effect trace, in
order. -/
def invokedCallIds (effs : List ChatEffect) : List String :=
  effs.filterMap
    (fun e =>
      match e with
      | ChatEffect.invokeTool _ callId => some callId
      | _ => none)

theorem invokedCallIds_append (l₁ l₂ : List ChatEffect) :
    invokedCallIds (l₁ ++ l₂) = invokedCallIds l₁ ++ invokedCallIds l₂ := by
  simp [invokedCallIds, List.filterMap_append]

theorem dispatchCount_append (l₁ l₂ : List ChatEffect) :
    dispatchCount (l₁ ++ l₂) = dispatchCount l₁ + dispatchCount l₂ := by
  simp [dispatchCount, List.countP_append]

theorem invokedCallIds_streamMarkdownEffects
    (parts : List LanguageModelResponsePart) :
    invokedCallIds (streamMarkdownEffects parts) = [] := by
  induction parts with
  | nil => rfl
  | cons p rest ih =>
    cases p with
    | textPart v => simpa [streamMarkdownEffects, invokedCallIds] using ih
    | toolCallPart tc => simpa [streamMarkdownEffects, invokedCallIds] using ih

theorem dispatchCount_streamMarkdownEffects
    (parts : List LanguageModelResponsePart) :
    dispatchCount (streamMarkdownEffects parts) = 0 := by
  rw [dispatchCount, List.countP_eq_zero]
  intro e he
  simp only [streamMarkdownEffects, List.mem_filterMap] at he
  obtain ⟨p, _, hp⟩ := he
  cases p with
  | textPart v =>
    simp only [Option.some_inj] at hp
    simp [← hp, isSendRequest]
  | toolCallPart tc => simp at hp

theorem mem_streamMarkdownEffects (parts : List LanguageModelResponsePart)
    (e : ChatEffect) (he : e ∈ streamMarkdownEffects parts) :
    ∃ v, e = ChatEffect.markdown v ∧
      LanguageModelResponsePart.textPart v ∈ parts := by
  simp only [streamMarkdownEffects, List.mem_filterMap] at he
  obtain ⟨p, hpmem, hp⟩ := he
  cases p with
  | textPart v =>
    simp only [Option.some_inj] at hp
    exact ⟨v, hp.symm, hpmem⟩
  | toolCallPart tc => simp at hp

theorem streamMarkdownEffects_eq_nil (parts : List LanguageModelResponsePart)
    (h : parts.all (fun p => !isTextPart p) = true) :
    streamMarkdownEffects parts = [] := by
  induction parts with
  | nil => rfl
  | cons p rest ih =>
    simp only [List.all_cons, Bool.and_eq_true] at h
    cases p with
    | textPart v => simp [isTextPart] at h
    | toolCallPart tc =>
      simpa [streamMarkdownEffects] using ih h.2

theorem collectToolCalls_map_toolCallPart
    (calls : List LanguageModelToolCallPart) :
    collectToolCalls (calls.map LanguageModelResponsePart.toolCallPart)
      = calls := by
  induction calls with
  | nil => rfl
  | cons c rest ih => simpa [collectToolCalls] using ih

/-! ## Lemmas about the Invoke phase -/

theorem invokeToolCalls_isSome_mono (tools : List RegisteredTool)
    (calls : List LanguageModelToolCallPart)
    (cache : List (String × LanguageModelToolResult)) (k : String)
    (h : (recordGet cache k).isSome = true) :
    (recordGet (invokeToolCalls tools cache calls).1 k).isSome = true := by
  induction calls generalizing cache with
  | nil => simpa [invokeToolCalls] using h
  | cons tc rest ih =>
    simp only [invokeToolCalls]
    cases hfind : tools.find? (fun t => t.name == tc.name) with
    | none => exact ih _ (recordGet_isSome_recordSet _ _ _ _ h)
    | some t =>
      cases himpl : lmInvokeTool tools tc.name tc.input with
      | ok toolResult => exact ih _ (recordGet_isSome_recordSet _ _ _ _ h)
      | error msg => exact ih _ (recordGet_isSome_recordSet _ _ _ _ h)

theorem invokeToolCalls_isSome_of_mem (tools : List RegisteredTool)
    (calls : List LanguageModelToolCallPart)
    (cache : List (String × LanguageModelToolResult))
    (tc : LanguageModelToolCallPart) (hmem : tc ∈ calls) :
    (recordGet (invokeToolCalls tools cache calls).1 tc.callId).isSome
      = true := by
  induction calls generalizing cache with
  | nil => simp at hmem
  | cons c rest ih =>
    rcases List.mem_cons.mp hmem with hc | hrest
    · subst hc
      have hself : ∀ (v : LanguageModelToolResult)
          (cache' : List (String × LanguageModelToolResult)),
          (recordGet (recordSet cache' tc.callId v) tc.callId).isSome = true := by
        intro v cache'
        rw [recordGet_recordSet_self]
        rfl
      simp only [invokeToolCalls]
      cases hfind : tools.find? (fun t => t.name == tc.name) with
      | none => exact invokeToolCalls_isSome_mono tools rest _ _ (hself _ _)
      | some t =>
        cases himpl : lmInvokeTool tools tc.name tc.input with
        | ok toolResult =>
          exact invokeToolCalls_isSome_mono tools rest _ _ (hself _ _)
        | error msg =>
          exact invokeToolCalls_isSome_mono tools rest _ _ (hself _ _)
    · simp only [invokeToolCalls]
      cases hfind : tools.find? (fun t => t.name == c.name) with
      | none => exact ih _ hrest
      | some t =>
        cases himpl : lmInvokeTool tools c.name c.input with
        | ok toolResult => exact ih _ hrest
        | error msg => exact ih _ hrest

theorem invokeToolCalls_get_stable (tools : List RegisteredTool)
    (calls : List LanguageModelToolCallPart)
    (cache : List (String × LanguageModelToolResult)) (k : String)
    (h : ∀ tc ∈ calls, tc.callId ≠ k) :
    recordGet (invokeToolCalls tools cache calls).1 k = recordGet cache k := by
  induction calls generalizing cache with
  | nil => rfl
  | cons c rest ih =>
    have hc : c.callId ≠ k := h c (List.mem_cons_self c rest)
    have hrest : ∀ tc ∈ rest, tc.callId ≠ k :=
      fun tc htc => h tc (List.mem_cons_of_mem c htc)
    simp only [invokeToolCalls]
    cases hfind : tools.find? (fun t => t.name == c.name) with
    | none =>
      rw [ih _ hrest, recordGet_recordSet_of_ne _ _ _ _ hc]
    | some t =>
      cases himpl : lmInvokeTool tools c.name c.input with
      | ok toolResult =>
        show recordGet (invokeToolCalls tools _ rest).1 k = _
        rw [ih _ hrest, recordGet_recordSet_of_ne _ _ _ _ hc]
      | error msg =>
        show recordGet (invokeToolCalls tools _ rest).1 k = _
        rw [ih _ hrest, recordGet_recordSet_of_ne _ _ _ _ hc]

theorem invokeToolCalls_notFound (tools : List RegisteredTool)
    (calls : List LanguageModelToolCallPart)
    (cache : List (String × LanguageModelToolResult))
    (hnodup : (calls.map (fun tc => tc.callId)).Nodup)
    (tc : LanguageModelToolCallPart) (hmem : tc ∈ calls)
    (hfind : tools.find? (fun t => t.name == tc.name) = none) :
    recordGet (invokeToolCalls tools cache calls).1 tc.callId
      = some ⟨["Tool not found"]⟩ := by
  induction calls generalizing cache with
  | nil => simp at hmem
  | cons c rest ih =>
    simp only [List.map_cons, List.nodup_cons] at hnodup
    rcases List.mem_cons.mp hmem with hc | hrest
    · subst hc
      have hrestne : ∀ x ∈ rest, x.callId ≠ tc.callId := by
        intro x hx hex
        exact hnodup.1 (List.mem_map.mpr ⟨x, hx, hex⟩)
      simp only [invokeToolCalls, hfind]
      rw [invokeToolCalls_get_stable tools rest _ _ hrestne,
        recordGet_recordSet_self]
    · have hcne : tc.callId ≠ c.callId := by
        intro hex
        exact hnodup.1 (List.mem_map.mpr ⟨tc, hrest, hex⟩)
      simp only [invokeToolCalls]
      cases hfindc : tools.find? (fun t => t.name == c.name) with
      | none => exact ih _ hnodup.2 hrest
      | some t =>
        cases himpl : lmInvokeTool tools c.name c.input with
        | ok toolResult => exact ih _ hnodup.2 hrest
        | error msg => exact ih _ hnodup.2 hrest

theorem invokeToolCalls_error (tools : List RegisteredTool)
    (calls : List LanguageModelToolCallPart)
    (cache : List (String × LanguageModelToolResult))
    (hnodup : (calls.map (fun tc => tc.callId)).Nodup)
    (tc : LanguageModelToolCallPart) (hmem : tc ∈ calls)
    (hfind : (tools.find? (fun t => t.name == tc.name)).isSome = true)
    (msg : String)
    (himpl : lmInvokeTool tools tc.name tc.input = Except.error msg) :
    recordGet (invokeToolCalls tools cache calls).1 tc.callId
      = some ⟨["Error invoking tool: " ++ msg]⟩ := by
  induction calls generalizing cache with
  | nil => simp at hmem
  | cons c rest ih =>
    simp only [List.map_cons, List.nodup_cons] at hnodup
    rcases List.mem_cons.mp hmem with hc | hrest
    · subst hc
      have hrestne : ∀ x ∈ rest, x.callId ≠ tc.callId := by
        intro x hx hex
        exact hnodup.1 (List.mem_map.mpr ⟨x, hx, hex⟩)
      obtain ⟨t, ht⟩ := Option.isSome_iff_exists.mp hfind
      simp only [invokeToolCalls, ht, himpl]
      show recordGet (invokeToolCalls tools _ rest).1 tc.callId = _
      rw [invokeToolCalls_get_stable tools rest _ _ hrestne,
        recordGet_recordSet_self]
    · have hcne : tc.callId ≠ c.callId := by
        intro hex
        exact hnodup.1 (List.mem_map.mpr ⟨tc, hrest, hex⟩)
      simp only [invokeToolCalls]
      cases hfindc : tools.find? (fun t => t.name == c.name) with
      | none => exact ih _ hnodup.2 hrest
      | some t =>
        cases himplc : lmInvokeTool tools c.name c.input with
        | ok toolResult => exact ih _ hnodup.2 hrest
        | error m => exact ih _ hnodup.2 hrest

theorem invokeToolCalls_snd_length (tools : List RegisteredTool)
    (calls : List LanguageModelToolCallPart)
    (cache : List (String × LanguageModelToolResult)) :
    (invokeToolCalls tools cache calls).2.length =
      (calls.filter
        (fun tc => (tools.find? (fun t => t.name == tc.name)).isSome)).length := by
  induction calls generalizing cache with
  | nil => rfl
  | cons c rest ih =>
    simp only [invokeToolCalls]
    cases hfind : tools.find? (fun t => t.name == c.name) with
    | none => simpa [List.filter_cons, hfind] using ih _
    | some t =>
      cases himpl : lmInvokeTool tools c.name c.input with
      | ok toolResult => simpa [List.filter_cons, hfind] using ih _
      | error msg => simpa [List.filter_cons, hfind] using ih _

theorem invokeToolCalls_keys (tools : List RegisteredTool)
    (calls : List LanguageModelToolCallPart)
    (cache : List (String × LanguageModelToolResult))
    (hfresh : ∀ tc ∈ calls, tc.callId ∉ recordKeys cache)
    (hnodup : (calls.map (fun tc => tc.callId)).Nodup) :
    recordKeys (invokeToolCalls tools cache calls).1 =
      recordKeys cache ++ calls.map (fun tc => tc.callId) := by
  induction calls generalizing cache with
  | nil => simp [invokeToolCalls]
  | cons c rest ih =>
    simp only [List.map_cons, List.nodup_cons] at hnodup
    have hckeys :=
      recordKeys_recordSet_of_not_mem cache c.callId
        (h := hfresh c (List.mem_cons_self c rest))
    have hrestfresh : ∀ (v : LanguageModelToolResult), ∀ tc ∈ rest,
        tc.callId ∉ recordKeys (recordSet cache c.callId v) := by
      intro v tc htc
      rw [recordKeys_recordSet_of_not_mem cache c.callId v
        (hfresh c (List.mem_cons_self c rest))]
      simp only [List.mem_append, List.mem_singleton]
      rintro (hin | heq)
      · exact hfresh tc (List.mem_cons_of_mem c htc) hin
      · exact hnodup.1 (List.mem_map.mpr ⟨tc, htc, heq⟩)
    have happ :
        recordKeys cache ++ [c.callId] ++ rest.map (fun tc => tc.callId) =
          recordKeys cache ++ c.callId :: rest.map (fun tc => tc.callId) := by
      rw [List.append_assoc, List.singleton_append]
    simp only [invokeToolCalls]
    cases hfind : tools.find? (fun t => t.name == c.name) with
    | none =>
      rw [ih _ (hrestfresh _) hnodup.2,
        recordKeys_recordSet_of_not_mem cache c.callId _
          (hfresh c (List.mem_cons_self c rest)),
        happ]
      rfl
    | some t =>
      cases himpl : lmInvokeTool tools c.name c.input with
      | ok toolResult =>
        show recordKeys (invokeToolCalls tools _ rest).1 = _
        rw [ih _ (hrestfresh _) hnodup.2,
          recordKeys_recordSet_of_not_mem cache c.callId _
            (hfresh c (List.mem_cons_self c rest)),
          happ]
        rfl
      | error msg =>
        show recordKeys (invokeToolCalls tools _ rest).1 = _
        rw [ih _ (hrestfresh _) hnodup.2,
          recordKeys_recordSet_of_not_mem cache c.callId _
            (hfresh c (List.mem_cons_self c rest)),
          happ]
        rfl

theorem invokedCallIds_invokeToolCalls_sublist (tools : List RegisteredTool)
    (calls : List LanguageModelToolCallPart)
    (cache : List (String × LanguageModelToolResult)) :
    (invokedCallIds (invokeToolCalls tools cache calls).2).Sublist
      (calls.map (fun tc => tc.callId)) := by
  induction calls generalizing cache with
  | nil => simp [invokeToolCalls, invokedCallIds]
  | cons c rest ih =>
    simp only [invokeToolCalls, List.map_cons]
    cases hfind : tools.find? (fun t => t.name == c.name) with
    | none => exact List.Sublist.cons _ (ih _)
    | some t =>
      cases himpl : lmInvokeTool tools c.name c.input with
      | ok toolResult =>
        show (invokedCallIds (ChatEffect.invokeTool c.name c.callId ::
          (invokeToolCalls tools _ rest).2)).Sublist _
        simp only [invokedCallIds, List.filterMap_cons]
        exact List.Sublist.cons₂ _ (ih _)
      | error msg =>
        show (invokedCallIds (ChatEffect.invokeTool c.name c.callId ::
          (invokeToolCalls tools _ rest).2)).Sublist _
        simp only [invokedCallIds, List.filterMap_cons]
        exact List.Sublist.cons₂ _ (ih _)

theorem dispatchCount_invokeToolCalls (tools : List RegisteredTool)
    (calls : List LanguageModelToolCallPart)
    (cache : List (String × LanguageModelToolResult)) :
    dispatchCount (invokeToolCalls tools cache calls).2 = 0 := by
  induction calls generalizing cache with
  | nil => rfl
  | cons c rest ih =>
    simp only [invokeToolCalls]
    cases hfind : tools.find? (fun t => t.name == c.name) with
    | none => exact ih _
    | some t =>
      cases himpl : lmInvokeTool tools c.name c.input with
      | ok toolResult =>
        show dispatchCount (ChatEffect.invokeTool c.name c.callId ::
          (invokeToolCalls tools _ rest).2) = 0
        simp only [dispatchCount, List.countP_cons, isSendRequest]
        simpa [dispatchCount] using ih _
      | error msg =>
        show dispatchCount (ChatEffect.invokeTool c.name c.callId ::
          (invokeToolCalls tools _ rest).2) = 0
        simp only [dispatchCount, List.countP_cons, isSendRequest]
        simpa [dispatchCount] using ih _

/-! ## Lemmas about the render phase -/

theorem toolResultElementInvokes_of_isSome (tools : List RegisteredTool)
    (cached : Option LanguageModelToolResult)
    (tc : LanguageModelToolCallPart) (h : cached.isSome = true) :
    toolResultElementInvokes tools cached tc = [] := by
  obtain ⟨r, hr⟩ := Option.isSome_iff_exists.mp h
  subst hr
  unfold toolResultElementInvokes
  cases tools.find? (fun t => t.name == tc.name) <;> rfl

theorem toolCallsRenderInvokes_eq_nil (tools : List RegisteredTool)
    (cache : List (String × LanguageModelToolResult))
    (rounds : List ToolCallRound)
    (h : ∀ r ∈ rounds, ∀ tc ∈ r.toolCalls,
      (recordGet cache tc.callId).isSome = true) :
    toolCallsRenderInvokes tools cache rounds = [] := by
  unfold toolCallsRenderInvokes
  rw [List.flatten_eq_nil_iff]
  intro l hl
  simp only [List.mem_map] at hl
  obtain ⟨r, hr, hrl⟩ := hl
  subst hrl
  unfold renderOneToolCallRoundInvokes
  rw [List.flatten_eq_nil_iff]
  intro l2 hl2
  simp only [List.mem_map] at hl2
  obtain ⟨tc, htc, htcl⟩ := hl2
  subst htcl
  exact toolResultElementInvokes_of_isSome _ _ _ (h r hr tc htc)

theorem dispatchCount_toolCallsRenderInvokes (tools : List RegisteredTool)
    (cache : List (String × LanguageModelToolResult))
    (rounds : List ToolCallRound) :
    dispatchCount (toolCallsRenderInvokes tools cache rounds) = 0 := by
  rw [dispatchCount, List.countP_eq_zero]
  intro e he
  simp only [toolCallsRenderInvokes, List.mem_flatten, List.mem_map] at he
  obtain ⟨l, ⟨r, hr, rfl⟩, hel⟩ := he
  simp only [renderOneToolCallRoundInvokes, List.mem_flatten, List.mem_map]
    at hel
  obtain ⟨l2, ⟨tc, htc, rfl⟩, hel2⟩ := hel
  revert hel2
  unfold toolResultElementInvokes
  cases tools.find? (fun t => t.name == tc.name) with
  | none => simp
  | some t =>
    cases recordGet cache tc.callId with
    | none =>
      intro hel2
      simp only [List.mem_singleton] at hel2
      subst hel2
      simp [isSendRequest]
    | some r2 => simp

/-! ## The identifiers a script window supplies -/

/-- The tool-call identifiers of the dispatches
`idx, idx + 1, ..., idx + fuel - 1` of a script, in order. -/
def scriptCallIds (script : Nat → List LanguageModelResponsePart) :
    Nat → Nat → List String
  | _, 0 => []
  | idx, fuel + 1 =>
    (collectToolCalls (script idx)).map (fun tc => tc.callId) ++
      scriptCallIds script (idx + 1) fuel

/-- One unfolding of the orchestration loop. -/
theorem executeToolCallRound_succ (tools : List RegisteredTool)
    (script : Nat → List LanguageModelResponsePart) (fuel idx : Nat)
    (rounds : List ToolCallRound)
    (cache : List (String × LanguageModelToolResult)) :
    executeToolCallRound tools script (fuel + 1) idx rounds cache =
      if (collectToolCalls (script idx)).isEmpty then
        some ({ success := true,
                metadata := { toolCallsMetadata := some ⟨rounds, cache⟩ } },
              toolCallsRenderInvokes tools cache rounds ++
                [ChatEffect.sendRequest idx] ++
                streamMarkdownEffects (script idx))
      else
        (executeToolCallRound tools script fuel (idx + 1)
            (rounds ++ [⟨streamResponseText (script idx),
              collectToolCalls (script idx)⟩])
            (invokeToolCalls tools cache (collectToolCalls (script idx))).1).map
          (fun re => (re.1,
            (toolCallsRenderInvokes tools cache rounds ++
              [ChatEffect.sendRequest idx] ++
              streamMarkdownEffects (script idx)) ++
            (invokeToolCalls tools cache (collectToolCalls (script idx))).2 ++
            re.2)) := by
  show (if (collectToolCalls (script idx)).isEmpty then _ else _) = _
  split
  · rfl
  · rename_i hne
    cases hrec : executeToolCallRound tools script fuel (idx + 1)
        (rounds ++ [⟨streamResponseText (script idx),
          collectToolCalls (script idx)⟩])
        (invokeToolCalls tools cache (collectToolCalls (script idx))).1 with
    | none => simp [hrec]
    | some re => simp [hrec]

/-- The invariant of the orchestration loop: when all identifiers the
script supplies over the remaining window are fresh and pairwise
distinct, every completed round has pairwise distinct identifiers, the
result cache holds each key once, and no identifier is ever passed to
`invokeTool` twice. -/
theorem executeToolCallRound_trace (tools : List RegisteredTool)
    (script : Nat → List LanguageModelResponsePart) :
    ∀ (fuel idx : Nat) (rounds : List ToolCallRound)
      (cache : List (String × LanguageModelToolResult))
      (res : lean4ChatResult) (effs : List ChatEffect),
      (recordKeys cache ++ scriptCallIds script idx fuel).Nodup →
      (∀ r ∈ rounds, ∀ tc ∈ r.toolCalls,
        (recordGet cache tc.callId).isSome = true) →
      (∀ r ∈ rounds, (r.toolCalls.map (fun tc => tc.callId)).Nodup) →
      executeToolCallRound tools script fuel idx rounds cache
        = some (res, effs) →
      ((∀ tcm, res.metadata.toolCallsMetadata = some tcm →
        ((∀ r ∈ tcm.toolCallRounds,
            (r.toolCalls.map (fun tc => tc.callId)).Nodup) ∧
          (recordKeys tcm.toolCallResults).Nodup)) ∧
        (invokedCallIds effs).Sublist (scriptCallIds script idx fuel)) := by
  intro fuel
  induction fuel with
  | zero =>
    intro idx rounds cache res effs hn hcached hrids hexec
    simp [executeToolCallRound] at hexec
  | succ fuel ih =>
    intro idx rounds cache res effs hn hcached hrids hexec
    have hrender : toolCallsRenderInvokes tools cache rounds = [] :=
      toolCallsRenderInvokes_eq_nil _ _ _ hcached
    rw [executeToolCallRound_succ] at hexec
    by_cases hempty : (collectToolCalls (script idx)).isEmpty = true
    · rw [if_pos hempty] at hexec
      cases hexec
      constructor
      · intro tcm htcm
        simp only [Option.some_inj] at htcm
        subst htcm
        exact ⟨hrids, (List.nodup_append.mp hn).1⟩
      · rw [invokedCallIds_append, invokedCallIds_append, hrender,
          invokedCallIds_streamMarkdownEffects]
        simp [invokedCallIds, List.nil_sublist]
    · rw [if_neg hempty] at hexec
      rw [Option.map_eq_some'] at hexec
      obtain ⟨⟨r0, effs0⟩, hrec, hmap⟩ := hexec
      have hres : res = r0 := by
        have := congrArg Prod.fst hmap
        simpa using this.symm
      have heffs : effs =
          (toolCallsRenderInvokes tools cache rounds ++
            [ChatEffect.sendRequest idx] ++
            streamMarkdownEffects (script idx)) ++
          (invokeToolCalls tools cache (collectToolCalls (script idx))).2 ++
          effs0 := by
        have := congrArg Prod.snd hmap
        simpa using this.symm
      -- notation for this round
      have hwin : scriptCallIds script idx (fuel + 1) =
          (collectToolCalls (script idx)).map (fun tc => tc.callId) ++
            scriptCallIds script (idx + 1) fuel := rfl
      -- decompose the nodup hypothesis
      have hn' : ((recordKeys cache ++
          (collectToolCalls (script idx)).map (fun tc => tc.callId)) ++
            scriptCallIds script (idx + 1) fuel).Nodup := by
        rw [List.append_assoc]
        rw [hwin] at hn
        exact hn
      have hK : (recordKeys cache).Nodup := (List.nodup_append.mp hn).1
      have hmid : ((collectToolCalls (script idx)).map
          (fun tc => tc.callId)).Nodup := by
        have h2 := (List.nodup_append.mp hn).2.1
        rw [hwin] at hn
        exact (List.nodup_append.mp ((List.nodup_append.mp hn).2.1)).1
      have hfresh : ∀ tc ∈ collectToolCalls (script idx),
          tc.callId ∉ recordKeys cache := by
        intro tc htc hkey
        rw [hwin] at hn
        have hdisj := (List.nodup_append.mp hn).2.2
        exact hdisj hkey
          (List.mem_append_left _ (List.mem_map.mpr ⟨tc, htc, rfl⟩))
      have hkeys :
          recordKeys (invokeToolCalls tools cache
            (collectToolCalls (script idx))).1 =
          recordKeys cache ++
            (collectToolCalls (script idx)).map (fun tc => tc.callId) :=
        invokeToolCalls_keys tools _ cache hfresh hmid
      -- the IH preconditions at the extended state
      have hnrec : (recordKeys (invokeToolCalls tools cache
          (collectToolCalls (script idx))).1 ++
            scriptCallIds script (idx + 1) fuel).Nodup := by
        rw [hkeys]
        exact hn'
      have hcachedrec : ∀ r ∈ rounds ++
          [ToolCallRound.mk (streamResponseText (script idx))
            (collectToolCalls (script idx))],
          ∀ tc ∈ r.toolCalls,
          (recordGet (invokeToolCalls tools cache
            (collectToolCalls (script idx))).1 tc.callId).isSome = true := by
        intro r hr tc htc
        rcases List.mem_append.mp hr with hold | hnew
        · exact invokeToolCalls_isSome_mono tools _ cache tc.callId
            (hcached r hold tc htc)
        · simp only [List.mem_singleton] at hnew
          subst hnew
          exact invokeToolCalls_isSome_of_mem tools _ cache tc htc
      have hridsrec : ∀ r ∈ rounds ++
          [ToolCallRound.mk (streamResponseText (script idx))
            (collectToolCalls (script idx))],
          (r.toolCalls.map (fun tc => tc.callId)).Nodup := by
        intro r hr
        rcases List.mem_append.mp hr with hold | hnew
        · exact hrids r hold
        · simp only [List.mem_singleton] at hnew
          subst hnew
          exact hmid
      obtain ⟨hmeta, hsub⟩ := ih (idx + 1) _ _ r0 effs0 hnrec hcachedrec
        hridsrec hrec
      constructor
      · intro tcm htcm
        rw [hres] at htcm
        exact hmeta tcm htcm
      · have h1 : invokedCallIds [ChatEffect.sendRequest idx] = [] := rfl
        rw [heffs, hwin]
        simp only [invokedCallIds_append, hrender, h1,
          invokedCallIds_streamMarkdownEffects, List.nil_append,
          List.append_nil]
        exact List.Sublist.append
          (invokedCallIds_invokeToolCalls_sublist tools _ cache) hsub

/-- Termination and dispatch count of the orchestration loop: when
dispatch `idx + k` is the first one in the window to return no tool
calls, the loop stops there with a success result after exactly `k + 1`
dispatches. -/
theorem executeToolCallRound_dispatches (tools : List RegisteredTool)
    (script : Nat → List LanguageModelResponsePart) :
    ∀ (k fuel idx : Nat) (rounds : List ToolCallRound)
      (cache : List (String × LanguageModelToolResult)),
      collectToolCalls (script (idx + k)) = [] →
      (∀ m, m < k → collectToolCalls (script (idx + m)) ≠ []) →
      k < fuel →
      ∃ res effs,
        executeToolCallRound tools script fuel idx rounds cache
          = some (res, effs) ∧ res.success = true ∧
          dispatchCount effs = k + 1 := by
  intro k
  induction k with
  | zero =>
    intro fuel idx rounds cache hstop hbefore hfuel
    cases fuel with
    | zero => omega
    | succ f =>
      have hstop' : collectToolCalls (script idx) = [] := by
        simpa using hstop
      have hempty : (collectToolCalls (script idx)).isEmpty = true := by
        simp [hstop']
      rw [executeToolCallRound_succ, if_pos hempty]
      refine ⟨_, _, rfl, rfl, ?_⟩
      have h1 : dispatchCount [ChatEffect.sendRequest idx] = 1 := rfl
      simp only [dispatchCount_append, dispatchCount_toolCallsRenderInvokes,
        dispatchCount_streamMarkdownEffects, h1]
  | succ k ih =>
    intro fuel idx rounds cache hstop hbefore hfuel
    cases fuel with
    | zero => omega
    | succ f =>
      have hne : collectToolCalls (script idx) ≠ [] := by
        have := hbefore 0 (by omega)
        simpa using this
      have hempty : ¬((collectToolCalls (script idx)).isEmpty = true) := by
        simpa [List.isEmpty_iff] using hne
      have hstop' : collectToolCalls (script (idx + 1 + k)) = [] := by
        have : idx + 1 + k = idx + (k + 1) := by omega
        rw [this]
        exact hstop
      have hbefore' : ∀ m, m < k →
          collectToolCalls (script (idx + 1 + m)) ≠ [] := by
        intro m hm
        have : idx + 1 + m = idx + (m + 1) := by omega
        rw [this]
        exact hbefore (m + 1) (by omega)
      obtain ⟨res, effs0, hrec, hsucc, hcount⟩ :=
        ih f (idx + 1)
          (rounds ++ [⟨streamResponseText (script idx),
            collectToolCalls (script idx)⟩])
          (invokeToolCalls tools cache (collectToolCalls (script idx))).1
          hstop' hbefore' (by omega)
      rw [executeToolCallRound_succ, if_neg hempty, hrec]
      refine ⟨res, _, rfl, hsucc, ?_⟩
      simp only [Option.map_some']
      have h1 : dispatchCount [ChatEffect.sendRequest idx] = 1 := rfl
      simp only [dispatchCount_append, dispatchCount_toolCallsRenderInvokes,
        dispatchCount_streamMarkdownEffects, dispatchCount_invokeToolCalls,
        h1, hcount]
      omega

/-! ## Demonstration registry and scripts used by the concrete instances -/

/-- A registry with an echoing tool and a throwing tool. -/
def demoTools : List RegisteredTool :=
  [⟨"echo", fun s => Except.ok ⟨[s]⟩⟩,
   ⟨"boom", fun _ => Except.error "kaboom"⟩]

/-- A call naming the registered echo tool. -/
def demoCallEcho : LanguageModelToolCallPart := ⟨"call-1", "echo", "x"⟩

/-- A call naming no registered tool. -/
def demoCallMissing : LanguageModelToolCallPart := ⟨"call-2", "missing", "y"⟩

/-- A call naming the registered throwing tool. -/
def demoCallBoom : LanguageModelToolCallPart := ⟨"call-3", "boom", "z"⟩

/-- C1: the claim quantifies over one round of requested tool calls
with pairwise distinct identifiers. -/
theorem C1_invoke_state_round (tools : List RegisteredTool)
    (cache : List (String × LanguageModelToolResult))
    (calls : List LanguageModelToolCallPart)
    (hnodup : (calls.map (fun tc => tc.callId)).Nodup) :
    (invokeToolCalls tools cache calls).2.length =
      (calls.filter
        (fun tc => (tools.find? (fun t => t.name == tc.name)).isSome)).length
    ∧ (∀ tc ∈ calls,
        (recordGet (invokeToolCalls tools cache calls).1 tc.callId).isSome
          = true)
    ∧ (∀ tc ∈ calls, tools.find? (fun t => t.name == tc.name) = none →
        recordGet (invokeToolCalls tools cache calls).1 tc.callId
          = some ⟨["Tool not found"]⟩)
    ∧ (∀ tc ∈ calls, ∀ msg : String,
        (tools.find? (fun t => t.name == tc.name)).isSome = true →
        lmInvokeTool tools tc.name tc.input = Except.error msg →
        recordGet (invokeToolCalls tools cache calls).1 tc.callId
          = some ⟨["Error invoking tool: " ++ msg]⟩)
    ∧ (∃ res effs,
        runTools tools
          (fun i => if i = 0
            then calls.map LanguageModelResponsePart.toolCallPart else [])
          2 = some (res, effs) ∧ res.success = true) := by
  refine ⟨invokeToolCalls_snd_length tools calls cache,
    fun tc htc => invokeToolCalls_isSome_of_mem tools calls cache tc htc,
    fun tc htc hfind =>
      invokeToolCalls_notFound tools calls cache hnodup tc htc hfind,
    fun tc htc msg hfind himpl =>
      invokeToolCalls_error tools calls cache hnodup tc htc hfind msg himpl,
    ?_⟩
  cases calls with
  | nil => exact ⟨_, _, rfl, rfl⟩
  | cons c rest => exact ⟨_, _, rfl, rfl⟩

/-- C1, concrete instance: registry with two tools, a round naming the
echo tool, a missing tool and a throwing tool. -/
theorem C1_invoke_state_round_witness :
    (invokeToolCalls demoTools []
      [demoCallEcho, demoCallMissing, demoCallBoom]).2.length =
      ([demoCallEcho, demoCallMissing, demoCallBoom].filter
        (fun tc =>
          (demoTools.find? (fun t => t.name == tc.name)).isSome)).length
    ∧ (∀ tc ∈ [demoCallEcho, demoCallMissing, demoCallBoom],
        (recordGet (invokeToolCalls demoTools []
          [demoCallEcho, demoCallMissing, demoCallBoom]).1 tc.callId).isSome
          = true)
    ∧ (∀ tc ∈ [demoCallEcho, demoCallMissing, demoCallBoom],
        demoTools.find? (fun t => t.name == tc.name) = none →
        recordGet (invokeToolCalls demoTools []
          [demoCallEcho, demoCallMissing, demoCallBoom]).1 tc.callId
          = some ⟨["Tool not found"]⟩)
    ∧ (∀ tc ∈ [demoCallEcho, demoCallMissing, demoCallBoom], ∀ msg : String,
        (demoTools.find? (fun t => t.name == tc.name)).isSome = true →
        lmInvokeTool demoTools tc.name tc.input = Except.error msg →
        recordGet (invokeToolCalls demoTools []
          [demoCallEcho, demoCallMissing, demoCallBoom]).1 tc.callId
          = some ⟨["Error invoking tool: " ++ msg]⟩)
    ∧ (∃ res effs,
        runTools demoTools
          (fun i => if i = 0
            then [demoCallEcho, demoCallMissing, demoCallBoom].map
              LanguageModelResponsePart.toolCallPart else [])
          2 = some (res, effs) ∧ res.success = true) :=
  C1_invoke_state_round demoTools []
    [demoCallEcho, demoCallMissing, demoCallBoom] (by decide)

/-- C2: the loop returns success after exactly `n + 1` dispatches when
dispatch `n` is the first to carry no tool call (termination needs the
precondition that such an `n` exists within the fuel). -/
theorem C2_loop_termination (tools : List RegisteredTool)
    (script : Nat → List LanguageModelResponsePart) (n fuel : Nat)
    (hstop : collectToolCalls (script n) = [])
    (hfirst : ∀ m, m < n → collectToolCalls (script m) ≠ [])
    (hfuel : n < fuel) :
    ∃ res effs, runTools tools script fuel = some (res, effs) ∧
      res.success = true ∧ dispatchCount effs = n + 1 :=
  executeToolCallRound_dispatches tools script n fuel 0 [] []
    (by simpa using hstop) (fun m hm => by simpa using hfirst m hm) hfuel

/-- A script answering a tool call, a second tool call, then plain text. -/
def C2script : Nat → List LanguageModelResponsePart := fun i =>
  if i = 0 then [LanguageModelResponsePart.toolCallPart demoCallEcho]
  else if i = 1 then [LanguageModelResponsePart.toolCallPart demoCallBoom]
  else [LanguageModelResponsePart.textPart "done"]

/-- C2, concrete instance: a scripted model returning a tool call, then
a second tool call, then none, produces exactly three dispatch phases. -/
theorem C2_loop_termination_witness :
    ∃ res effs, runTools demoTools C2script 3 = some (res, effs) ∧
      res.success = true ∧ dispatchCount effs = 2 + 1 :=
  C2_loop_termination demoTools C2script 2 3 (by decide) (by decide)
    (by decide)

/-- C3: when the script supplies pairwise distinct identifiers across
the run (the host contract for tool-call identifiers), every round of
the returned metadata has pairwise distinct identifiers, the result
cache holds every identifier at most once, the renderer skips
invocation for every identifier already cached, and no identifier is
passed to a tool invocation twice. -/
theorem C3_identifier_uniqueness (tools : List RegisteredTool)
    (script : Nat → List LanguageModelResponsePart) (fuel : Nat)
    (res : lean4ChatResult) (effs : List ChatEffect)
    (hids : (scriptCallIds script 0 fuel).Nodup)
    (hrun : runTools tools script fuel = some (res, effs)) :
    (∀ tcm, res.metadata.toolCallsMetadata = some tcm →
      ((∀ r ∈ tcm.toolCallRounds,
          (r.toolCalls.map (fun tc => tc.callId)).Nodup) ∧
        (recordKeys tcm.toolCallResults).Nodup))
    ∧ (invokedCallIds effs).Nodup
    ∧ (∀ cache : List (String × LanguageModelToolResult),
        ∀ tc : LanguageModelToolCallPart,
        (recordGet cache tc.callId).isSome = true →
        toolResultElementInvokes tools (recordGet cache tc.callId) tc
          = []) := by
  have h := executeToolCallRound_trace tools script fuel 0 [] [] res effs
    (by simpa [recordKeys] using hids) (by simp) (by simp) hrun
  exact ⟨h.1, List.Nodup.sublist h.2 hids,
    fun cache tc hs => toolResultElementInvokes_of_isSome tools _ tc hs⟩

/-- A script answering text plus two tool calls, then one further tool
call, then plain text, with pairwise distinct call identifiers. -/
def C3script : Nat → List LanguageModelResponsePart := fun i =>
  if i = 0 then
    [LanguageModelResponsePart.textPart "a",
     LanguageModelResponsePart.toolCallPart demoCallEcho,
     LanguageModelResponsePart.toolCallPart demoCallMissing]
  else if i = 1 then [LanguageModelResponsePart.toolCallPart demoCallBoom]
  else [LanguageModelResponsePart.textPart "done"]

/-- The turn result of running `C3script` against `demoTools`. -/
def C3res : lean4ChatResult :=
  { success := true,
    metadata :=
      { toolCallsMetadata := some
          { toolCallRounds :=
              [⟨"a", [demoCallEcho, demoCallMissing]⟩, ⟨"", [demoCallBoom]⟩],
            toolCallResults :=
              [("call-1", ⟨["x"]⟩),
               ("call-2", ⟨["Tool not found"]⟩),
               ("call-3", ⟨["Error invoking tool: kaboom"]⟩)] } } }

/-- The effect trace of running `C3script` against `demoTools`. -/
def C3effs : List ChatEffect :=
  [ChatEffect.sendRequest 0, ChatEffect.markdown "a",
   ChatEffect.invokeTool "echo" "call-1", ChatEffect.sendRequest 1,
   ChatEffect.invokeTool "boom" "call-3", ChatEffect.sendRequest 2,
   ChatEffect.markdown "done"]

/-- C3, concrete instance: the two-round run against the demonstration
registry invokes each identifier at most once and caches each once. -/
theorem C3_identifier_uniqueness_witness :
    (∀ tcm, C3res.metadata.toolCallsMetadata = some tcm →
      ((∀ r ∈ tcm.toolCallRounds,
          (r.toolCalls.map (fun tc => tc.callId)).Nodup) ∧
        (recordKeys tcm.toolCallResults).Nodup))
    ∧ (invokedCallIds C3effs).Nodup
    ∧ (∀ cache : List (String × LanguageModelToolResult),
        ∀ tc : LanguageModelToolCallPart,
        (recordGet cache tc.callId).isSome = true →
        toolResultElementInvokes demoTools (recordGet cache tc.callId) tc
          = []) :=
  C3_identifier_uniqueness demoTools C3script 3 C3res C3effs (by decide)
    (by decide)

/-- C4, counterexample: on a response stream with no text parts, the
lean4 no-tools path returns success and streams no warning, against the
claimed failure result. -/
theorem C4_empty_response_counterexample :
    (runNoTools (fun _ => [])).1.success = true
    ∧ (runNoTools (fun _ => [])).2 = [ChatEffect.sendRequest 0] :=
  ⟨rfl, rfl⟩

/-- C4 (amended): when the response stream holds no text parts, the
lean4 handler streams nothing beyond the request and still returns
success; only the capy1-iteration handler produces the empty-response
warning and failure, and it does so exactly when the response or its
text property is absent, while a present text stream with zero
fragments still succeeds. -/
theorem C4_empty_response_amended
    (script : Nat → List LanguageModelResponsePart)
    (h : (script 0).all (fun p => !isTextPart p) = true) :
    (runNoTools script).1.success = true
    ∧ (runNoTools script).2 = [ChatEffect.sendRequest 0]
    ∧ Capy1.handleChatRequest none =
        ({ success := false, error := some "Empty response from chat model" },
         [ChatEffect.markdown "The chat model returned an empty response."])
    ∧ Capy1.handleChatRequest (some ⟨none⟩) =
        ({ success := false, error := some "Empty response from chat model" },
         [ChatEffect.markdown "The chat model returned an empty response."])
    ∧ (∀ fragments : List String,
        Capy1.handleChatRequest (some ⟨some fragments⟩) =
          ({ success := true }, fragments.map ChatEffect.markdown)) := by
  refine ⟨rfl, ?_, rfl, rfl, fun fragments => rfl⟩
  show ChatEffect.sendRequest 0 :: streamMarkdownEffects (script 0) =
    [ChatEffect.sendRequest 0]
  rw [streamMarkdownEffects_eq_nil (script 0) h]

/-- C4, concrete instance of the amended statement: a stream holding
one tool-call part and no text part. -/
theorem C4_empty_response_amended_witness :
    (runNoTools (fun _ =>
      [LanguageModelResponsePart.toolCallPart demoCallEcho])).1.success = true
    ∧ (runNoTools (fun _ =>
        [LanguageModelResponsePart.toolCallPart demoCallEcho])).2 =
        [ChatEffect.sendRequest 0]
    ∧ Capy1.handleChatRequest none =
        ({ success := false, error := some "Empty response from chat model" },
         [ChatEffect.markdown "The chat model returned an empty response."])
    ∧ Capy1.handleChatRequest (some ⟨none⟩) =
        ({ success := false, error := some "Empty response from chat model" },
         [ChatEffect.markdown "The chat model returned an empty response."])
    ∧ (∀ fragments : List String,
        Capy1.handleChatRequest (some ⟨some fragments⟩) =
          ({ success := true }, fragments.map ChatEffect.markdown)) :=
  C4_empty_response_amended
    (fun _ => [LanguageModelResponsePart.toolCallPart demoCallEcho])
    (by decide)

/-- C5, counterexample: for the listTools command the success metadata
carries the command tag list, not the command name listTools. -/
theorem C5_direct_command_counterexample :
    (lean4CopilotChatHandler ⟨some "listTools", ""⟩ [] []
      (Except.error JsError.other)).1.metadata.command = some "list"
    ∧ (some "list" : Option String) ≠ some "listTools" := by
  exact ⟨by decide, by decide⟩

/-- C5 (amended): a recognized direct command short-circuits the
handler: the table is streamed, the request body (and with it every
model dispatch) is never consulted, and the success metadata carries
the command tag — the string listModels for the listModels command and
the string list for the listTools command. -/
theorem C5_direct_command_amended (request : ChatRequest)
    (toolsInfo : List ToolInformation) (models : List LanguageModelChat)
    (rest : Except JsError (lean4ChatResult × List ChatEffect)) :
    (request.command = some "listTools" →
      lean4CopilotChatHandler request toolsInfo models rest =
        ({ success := true, metadata := { command := some "list" } },
         [ChatEffect.progress "lean4Copilot is busy thinking...",
          ChatEffect.markdown (getToolsMarkdownTable toolsInfo)]))
    ∧ (request.command = some "listModels" →
      lean4CopilotChatHandler request toolsInfo models rest =
        ({ success := true, metadata := { command := some "listModels" } },
         [ChatEffect.progress "lean4Copilot is busy thinking...",
          ChatEffect.markdown (getModelsMarkdownTable models)]))
    ∧ ((request.command = some "listTools" ∨
        request.command = some "listModels") →
      dispatchCount
        (lean4CopilotChatHandler request toolsInfo models rest).2 = 0) := by
  have h1 : request.command = some "listTools" →
      lean4CopilotChatHandler request toolsInfo models rest =
        ({ success := true, metadata := { command := some "list" } },
         [ChatEffect.progress "lean4Copilot is busy thinking...",
          ChatEffect.markdown (getToolsMarkdownTable toolsInfo)]) := by
    intro h
    simp [lean4CopilotChatHandler, h, listToolsCommand]
  have h2 : request.command = some "listModels" →
      lean4CopilotChatHandler request toolsInfo models rest =
        ({ success := true, metadata := { command := some "listModels" } },
         [ChatEffect.progress "lean4Copilot is busy thinking...",
          ChatEffect.markdown (getModelsMarkdownTable models)]) := by
    intro h
    have hne : ¬(request.command = some "listTools") := by simp [h]
    simp [lean4CopilotChatHandler, h, hne, listModelsCommand]
  refine ⟨h1, h2, ?_⟩
  rintro (h | h)
  · rw [h1 h]
    rfl
  · rw [h2 h]
    rfl

/-- A demonstration model for the tables. -/
def demoModels : List LanguageModelChat :=
  [⟨"GPT 4o", "copilot", "gpt-4o", 128000⟩]

/-- C5, concrete instance: the listModels command with a request body
outcome that would dispatch a model request; the handler never reaches
it. -/
theorem C5_direct_command_amended_witness :
    lean4CopilotChatHandler ⟨some "listModels", "hi"⟩ [] demoModels
        (Except.ok ({ success := true }, [ChatEffect.sendRequest 0])) =
      ({ success := true, metadata := { command := some "listModels" } },
       [ChatEffect.progress "lean4Copilot is busy thinking...",
        ChatEffect.markdown (getModelsMarkdownTable demoModels)])
    ∧ dispatchCount (lean4CopilotChatHandler ⟨some "listModels", "hi"⟩ []
        demoModels (Except.ok ({ success := true },
          [ChatEffect.sendRequest 0]))).2 = 0 :=
  ⟨(C5_direct_command_amended ⟨some "listModels", "hi"⟩ [] demoModels
      (Except.ok ({ success := true }, [ChatEffect.sendRequest 0]))).2.1 rfl,
   (C5_direct_command_amended ⟨some "listModels", "hi"⟩ [] demoModels
      (Except.ok ({ success := true },
        [ChatEffect.sendRequest 0]))).2.2 (Or.inr rfl)⟩

/-- C6: with the auto-tool-use flag disabled the handler takes the
no-tools path: only the text parts of the one response are streamed as
markdown, tool-call parts are ignored, no tool invocation happens, and
the turn returns success with no tool metadata. -/
theorem C6_tool_disabled_path (tools : List RegisteredTool)
    (script : Nat → List LanguageModelResponsePart) (fuel : Nat) :
    handleChatRequest false tools script fuel = some (runNoTools script)
    ∧ (runNoTools script).1.success = true
    ∧ (runNoTools script).1.metadata.toolCallsMetadata = none
    ∧ (runNoTools script).2 =
        ChatEffect.sendRequest 0 :: streamMarkdownEffects (script 0)
    ∧ invokedCallIds (runNoTools script).2 = []
    ∧ (∀ e ∈ (runNoTools script).2, e = ChatEffect.sendRequest 0 ∨
        ∃ v, e = ChatEffect.markdown v ∧
          LanguageModelResponsePart.textPart v ∈ script 0) := by
  refine ⟨rfl, rfl, rfl, rfl, ?_, ?_⟩
  · exact invokedCallIds_streamMarkdownEffects (script 0)
  · intro e he
    rcases List.mem_cons.mp he with h | h
    · exact Or.inl h
    · exact Or.inr (mem_streamMarkdownEffects (script 0) e h)

/-- C7: model selection returns the first available copilot gpt-4o
model exactly when the current model is a copilot model whose family
starts with o1 and such a model is available; in every other case the
current model is returned unchanged. -/
theorem C7_model_selection (allModels : List LanguageModelChat)
    (currentModel : LanguageModelChat) :
    ((currentModel.vendor = "copilot" ∧
        stringStartsWith currentModel.family "o1" = true) →
      ∀ m, (selectChatModels allModels "copilot" "gpt-4o").head? = some m →
        selectAppropriateModel allModels currentModel = m)
    ∧ ((currentModel.vendor = "copilot" ∧
        stringStartsWith currentModel.family "o1" = true) →
      selectChatModels allModels "copilot" "gpt-4o" = [] →
        selectAppropriateModel allModels currentModel = currentModel)
    ∧ ((¬(currentModel.vendor = "copilot" ∧
        stringStartsWith currentModel.family "o1" = true)) →
      selectAppropriateModel allModels currentModel = currentModel) := by
  refine ⟨?_, ?_, ?_⟩
  · rintro ⟨hv, hf⟩ m hm
    have hcond : (currentModel.vendor == "copilot" &&
        stringStartsWith currentModel.family "o1") = true := by
      simp [Bool.and_eq_true, beq_iff_eq, hv, hf]
    cases hsel : selectChatModels allModels "copilot" "gpt-4o" with
    | nil => simp [hsel] at hm
    | cons a t =>
      rw [hsel] at hm
      simp only [List.head?_cons, Option.some_inj] at hm
      subst hm
      simp [selectAppropriateModel, hcond, hsel]
  · rintro ⟨hv, hf⟩ hsel
    have hcond : (currentModel.vendor == "copilot" &&
        stringStartsWith currentModel.family "o1") = true := by
      simp [Bool.and_eq_true, beq_iff_eq, hv, hf]
    simp [selectAppropriateModel, hcond, hsel]
  · intro hno
    have hcond : ¬((currentModel.vendor == "copilot" &&
        stringStartsWith currentModel.family "o1") = true) := by
      simp only [Bool.and_eq_true, beq_iff_eq]
      intro hc
      exact hno hc
    simp [selectAppropriateModel, hcond]

/-- A reasoning-family copilot model. -/
def C7o1Model : LanguageModelChat := ⟨"o1-preview", "copilot", "o1-preview", 0⟩

/-- A general-purpose copilot model. -/
def C7gpt4oModel : LanguageModelChat := ⟨"GPT 4o", "copilot", "gpt-4o", 128000⟩

/-- A model of another vendor. -/
def C7otherModel : LanguageModelChat := ⟨"claude", "anthropic", "claude-3", 200000⟩

/-- C7, concrete instances: the o1 model is swapped for the first
copilot gpt-4o model when one exists, kept when none exists, and a
non-copilot model is never swapped. -/
theorem C7_model_selection_witness :
    selectAppropriateModel [C7otherModel, C7gpt4oModel] C7o1Model
      = C7gpt4oModel
    ∧ selectAppropriateModel [C7otherModel] C7o1Model = C7o1Model
    ∧ selectAppropriateModel [C7otherModel, C7gpt4oModel] C7otherModel
      = C7otherModel :=
  ⟨(C7_model_selection [C7otherModel, C7gpt4oModel] C7o1Model).1
      ⟨rfl, by decide⟩ C7gpt4oModel (by decide),
   (C7_model_selection [C7otherModel] C7o1Model).2.1
      ⟨rfl, by decide⟩ (by decide),
   (C7_model_selection [C7otherModel, C7gpt4oModel] C7otherModel).2.2
      (by decide)⟩

/-- C8: every value thrown inside the handler body is caught: the
handler (a total function, so nothing escapes to the host) returns a
failure result whose error details carry the thrown Error message
(Unknown error for a non-Error value) and streams the generic failure
markdown. -/
theorem C8_handler_catches (request : ChatRequest)
    (toolsInfo : List ToolInformation) (models : List LanguageModelChat)
    (e : JsError)
    (h1 : request.command ≠ some "listTools")
    (h2 : request.command ≠ some "listModels") :
    (lean4CopilotChatHandler request toolsInfo models
      (Except.error e)).1.success = false
    ∧ (lean4CopilotChatHandler request toolsInfo models
        (Except.error e)).1.errorDetails = some ⟨jsErrorMessage e, false⟩
    ∧ ChatEffect.markdown
        "An unexpected error occurred while processing your request." ∈
        (lean4CopilotChatHandler request toolsInfo models
          (Except.error e)).2
    ∧ (∀ message : String,
        jsErrorMessage (JsError.error message) = message) := by
  have hh : lean4CopilotChatHandler request toolsInfo models
      (Except.error e) =
      ({ success := false, errorDetails := some ⟨jsErrorMessage e, false⟩,
         metadata := {} },
       [ChatEffect.progress "lean4Copilot is busy thinking...",
        ChatEffect.markdown
          "An unexpected error occurred while processing your request."]) := by
    simp only [lean4CopilotChatHandler, if_neg h1, if_neg h2]
  rw [hh]
  exact ⟨rfl, rfl, by simp, fun message => rfl⟩

/-- C8, concrete instance: a cancellation error thrown on a plain
request. -/
theorem C8_handler_catches_witness :
    (lean4CopilotChatHandler ⟨none, "hello"⟩ [] []
      (Except.error (JsError.error "Request cancelled"))).1.success = false
    ∧ (lean4CopilotChatHandler ⟨none, "hello"⟩ [] []
        (Except.error (JsError.error "Request cancelled"))).1.errorDetails
        = some ⟨"Request cancelled", false⟩
    ∧ ChatEffect.markdown
        "An unexpected error occurred while processing your request." ∈
        (lean4CopilotChatHandler ⟨none, "hello"⟩ [] []
          (Except.error (JsError.error "Request cancelled"))).2
    ∧ (∀ message : String,
        jsErrorMessage (JsError.error message) = message) :=
  C8_handler_catches ⟨none, "hello"⟩ [] [] (JsError.error "Request cancelled")
    (by decide) (by decide)

/-- C9: the metadata type guard returns true exactly for a truthy value
whose toolCallsMetadata property is truthy and whose
toolCallsMetadata.toolCallRounds property is an array; in particular an
object without any toolCallResults field is accepted. -/
theorem C9_type_guard :
    (∀ obj : JSValue, isTsxToolUserMetadata obj = true ↔
      (obj.truthy = true ∧ (obj.getProp "toolCallsMetadata").truthy = true ∧
        ((obj.getProp "toolCallsMetadata").getProp
          "toolCallRounds").isArray = true))
    ∧ isTsxToolUserMetadata
        (JSValue.object [("toolCallsMetadata",
          JSValue.object [("toolCallRounds", JSValue.array [])])]) = true := by
  constructor
  · intro obj
    simp [isTsxToolUserMetadata, Bool.and_eq_true, and_assoc]
  · decide

/-- C10: the follow-up providers are deterministic and independent of
the turn result and the chat context: with equal configured prompts the
same list is returned, one followup per configured prompt whose prompt
field is that string and whose label is that string behind the fixed
marker; the capy1 provider is likewise constant in its inputs. -/
theorem C10_followups_deterministic :
    (∀ (r₁ r₂ : lean4ChatResult) (c₁ c₂ : ChatContext)
      (followUps : List String),
      generateFollowups r₁ c₁ followUps = generateFollowups r₂ c₂ followUps)
    ∧ (∀ (r : lean4ChatResult) (c : ChatContext) (followUps : List String),
      generateFollowups r c followUps =
        followUps.map (fun prompt =>
          { prompt := prompt, label := "âž• " ++ prompt }))
    ∧ (∀ (r₁ r₂ : Capy1.ChatResult) (c₁ c₂ : ChatContext),
      Capy1.generateFollowups r₁ c₁ = Capy1.generateFollowups r₂ c₂)
    ∧ (∀ (r : Capy1.ChatResult) (c : ChatContext),
      Capy1.generateFollowups r c = Capy1.DEFAULT_FOLLOWUPS.map
        (fun prompt => { prompt := prompt, label := "🦫 " ++ prompt })) :=
  ⟨fun _ _ _ _ _ => rfl, fun _ _ _ => rfl, fun _ _ _ _ => rfl,
   fun _ _ => rfl⟩
